import Mathlib

/-!
Verification development for the schema-salad python code generator
(`src/schema_salad/python_codegen.py`).  The generator emits, per record
type, a `fromDoc` decode routine and a `save` encode routine, and compiles
schema type declarations into a deduplicated registry of loader
descriptors (`type_loader`).  This file gives a shallow embedding of the
behaviour of the emitted routines and of the loader compiler, and proves
the stated properties about them.

Documents are YAML/JSON-like trees; Python `None` is embedded as
`Val.null`, so `dict.get(k)` on a missing key becomes
`(alookup k kvs).getD Val.null`.
-/

/-- A YAML/JSON-like document tree value. -/
inductive Val : Type where
  | null : Val
  | str (s : String) : Val
  | int (n : Int) : Val
  | map (kvs : List (String × Val)) : Val
  | arr (xs : List Val) : Val

/-- A ValidationException: message plus ordered child causes
(`exceptions.ValidationException(msg, sl, children)`). -/
inductive VErr : Type where
  | mk (message : String) (children : List VErr)

/-- Message of a validation error. -/
def VErr.message : VErr → String
  | .mk m _ => m

/-- Child causes of a validation error. -/
def VErr.children : VErr → List VErr
  | .mk _ cs => cs

/-- How a generated `fromDoc` can fail: by raising a `ValidationException`,
or by hitting a plain Python runtime error (e.g. `UnboundLocalError`,
or calling `.get` on a non-mapping). -/
inductive LoadFailure : Type where
  | vex (e : VErr)
  | crash (msg : String)

/-- First-match association-list lookup, the embedding of Python dict
access on the (insertion-ordered) mappings used throughout. -/
def alookup (k : String) : List (String × Val) → Option Val
  | [] => none
  | (k2, v) :: rest => if k2 == k then some v else alookup k rest

/-- Whether the second character list starts with the first. -/
def leadsWith : List Char → List Char → Bool
  | [], _ => true
  | _ :: _, [] => false
  | p :: ps, c :: cs => p == c && leadsWith ps cs

/-- Whether a character list contains the first list as a contiguous
piece. -/
def hasSub (pat : List Char) : List Char → Bool
  | [] => leadsWith pat []
  | c :: cs => leadsWith pat (c :: cs) || hasSub pat cs

/-- Split a character list at the first occurrence of a character:
the part before it and the part after it. -/
def splitAtChar (c : Char) : List Char → Option (List Char × List Char)
  | [] => none
  | x :: xs =>
    if x == c then some ([], xs)
    else
      match splitAtChar c xs with
      | none => none
      | some (l, r) => some (x :: l, r)

/-- The characters before the first occurrence of a character. -/
def takeUntilChar (c : Char) : List Char → List Char
  | [] => []
  | x :: xs => if x == c then [] else x :: takeUntilChar c xs

/-- The characters after the last occurrence of a character, or the whole
list when the character does not occur. -/
def lastSeg (c : Char) (l : List Char) : List Char :=
  (takeUntilChar c l.reverse).reverse

/-- A declared non-id field of a record: its document key (the generator
emits `shortname(name)` as the key), whether it is optional, and its
compiled loader.  The loader embeds
`load_field(_doc.get(key), fieldtype, baseuri, loadingOptions)`. -/
structure FieldD : Type where
  name : String
  optional : Bool
  loader : Val → String → Except VErr Val

/-- The id field of a record (`declare_id_field`): its document key,
whether it is optional, and its compiled URI loader.  The loader returns
the resolved id string (the value the generated code assigns and then
uses as `baseuri`). -/
structure IdField : Type where
  name : String
  optional : Bool
  loader : Val → String → Except VErr String

/-- A generated record class: its (safe) class name, whether `class` is
among its declared field names (the discriminator), its id field if any,
its other declared fields in declaration order, and `attrs`, the full
declared field-name set emitted as `attrs = frozenset(field_names)`. -/
structure RecordClass : Type where
  classname : String
  hasClassField : Bool
  idField : Option IdField
  fields : List FieldD
  attrs : List String

/-- A decoded document instance: the `class_` attribute when present, the
id attribute, one slot per declared field, and the extension-fields map. -/
structure Inst : Type where
  classAttr : Option String
  idAttr : Option String
  fieldAttrs : List (String × Option Val)
  extensionFields : List (String × Val)

/-- The generated discriminator test `_doc.get('class') != 'Classname'`:
in Python only an equal string compares equal to the class name. -/
def isClassMatch (v : Option Val) (c : String) : Bool :=
  match v with
  | some (Val.str s) => s == c
  | _ => false

/-- Class-discriminator check emitted by `begin_class`
(python_codegen.py lines 183-192): on mismatch it raises
`ValidationException("Not a Classname")` before any field is decoded. -/
def classCheck (rc : RecordClass) (kvs : List (String × Val)) :
    Except LoadFailure Unit :=
  if rc.hasClassField && !(isClassMatch (alookup "class" kvs) rc.classname) then
    Except.error (LoadFailure.vex (VErr.mk ("Not a " ++ rc.classname) []))
  else
    Except.ok ()

/-- Id-field handling emitted by `declare_id_field` (python_codegen.py
lines 323-351).  The id is first loaded like an optional field; when the
key is present but the loader fails, the generated code appends the
wrapped error and then evaluates `if idvar is None:` on the never-assigned
variable, so Python raises `UnboundLocalError` (a crash, not a
`ValidationException`).  When absent: `docRoot` wins; else an optional id
is synthesized as `"_:" + str(_uuid__.uuid4())` (the per-call fresh uuid
text is the `fresh` parameter) and a required id raises Missing.
The second component of the result is the new `baseuri`. -/
def idStep (idf : IdField) (kvs : List (String × Val)) (baseuri : String)
    (docRoot : Option String) (fresh : String) :
    Except LoadFailure (String × String) :=
  match alookup idf.name kvs with
  | some raw =>
    match idf.loader raw baseuri with
    | Except.ok v => Except.ok (v, v)
    | Except.error _ =>
      Except.error (LoadFailure.crash ("UnboundLocalError: " ++ idf.name))
  | none =>
    match docRoot with
    | some r => Except.ok (r, r)
    | none =>
      if idf.optional then
        Except.ok ("_:" ++ fresh, "_:" ++ fresh)
      else
        Except.error (LoadFailure.vex (VErr.mk ("Missing " ++ idf.name) []))

/-- The id phase of a generated `fromDoc`: records without an id field
keep the caller-supplied base URI; records with one run `idStep`.
Returns the id attribute value and the base URI for the other fields. -/
def idPhase (rc : RecordClass) (kvs : List (String × Val)) (baseuri : String)
    (docRoot : Option String) (fresh : String) :
    Except LoadFailure (Option String × String) :=
  match rc.idField with
  | none => Except.ok (none, baseuri)
  | some idf =>
    match idStep idf kvs baseuri docRoot fresh with
    | Except.error e => Except.error e
    | Except.ok (v, b) => Except.ok (some v, b)

/-- Per-field decoding emitted by `declare_field` (python_codegen.py
lines 353-396), run over the declared non-id fields in declaration order.
An optional absent field is set to `None` without calling its loader; any
other field is loaded from `_doc.get(key)`; a loader failure is wrapped
in an error naming the field and appended to the error list, and decoding
continues with the next field. -/
def processFields : List FieldD → List (String × Val) → String →
    List VErr × List (String × Option Val)
  | [], _, _ => ([], [])
  | f :: rest, kvs, b =>
    let tail := processFields rest kvs b
    if f.optional && (alookup f.name kvs).isNone then
      (tail.1, (f.name, none) :: tail.2)
    else
      match f.loader ((alookup f.name kvs).getD Val.null) b with
      | Except.ok v => (tail.1, (f.name, some v) :: tail.2)
      | Except.error e =>
        (VErr.mk ("the `" ++ f.name ++ "` field is not valid because:") [e]
           :: tail.1,
         (f.name, none) :: tail.2)

/-- The error a single field contributes to the record attempt, if any:
nothing for an optional absent field or a successful load, else the
wrapped error naming the field. -/
def fieldAttempt (f : FieldD) (kvs : List (String × Val)) (b : String) :
    Option VErr :=
  if f.optional && (alookup f.name kvs).isNone then
    none
  else
    match f.loader ((alookup f.name kvs).getD Val.null) b with
    | Except.ok _ => none
    | Except.error e =>
      some (VErr.mk ("the `" ++ f.name ++ "` field is not valid because:") [e])

/-- The `expected one of` listing emitted into the invalid-field message
(`", ".join("`{f}`" for f in field_names)`). -/
def attrsStr (attrs : List String) : String :=
  String.intercalate ", " (attrs.map (fun f => "`" ++ f ++ "`"))

/-- Undeclared-key scan emitted by `end_class` (python_codegen.py lines
208-227): for every document key not in `attrs`, a key containing `:` is
expanded (`expand_url`, embedded as the `eu` parameter) and stored in the
extension-fields map; otherwise one invalid-field error naming the key is
appended and the loop `break`s, abandoning all remaining keys. -/
def scanExtensions (attrs : List String) (astr : String)
    (eu : String → String) :
    List (String × Val) → List VErr × List (String × Val)
  | [] => ([], [])
  | (k, v) :: rest =>
    if attrs.contains k then
      scanExtensions attrs astr eu rest
    else if k.data.contains ':' then
      let tail := scanExtensions attrs astr eu rest
      (tail.1, (eu k, v) :: tail.2)
    else
      ([VErr.mk ("invalid field `" ++ k ++ "`, expected one of: " ++ astr) []],
       [])

/-- Tail of a generated `fromDoc` after id resolution: decode the declared
fields against the resolved base URI, scan undeclared keys, and either
raise one aggregate error naming the record type with all collected causes
as children (`raise ValidationException("Trying 'Classname'", None,
_errors__)`) or build the instance. -/
def finishLoad (rc : RecordClass) (eu : String → String)
    (kvs : List (String × Val)) (idv : Option String) (b : String) :
    Except LoadFailure Inst :=
  let fl := processFields rc.fields kvs b
  let sc := scanExtensions rc.attrs (attrsStr rc.attrs) eu kvs
  let errs := fl.1 ++ sc.1
  if errs.isEmpty then
    Except.ok
      { classAttr := if rc.hasClassField then some rc.classname else none
        idAttr := idv
        fieldAttrs := fl.2
        extensionFields := sc.2 }
  else
    Except.error
      (LoadFailure.vex (VErr.mk ("Trying '" ++ rc.classname ++ "'") errs))

/-- The generated `fromDoc(doc, baseuri, loadingOptions, docRoot)` of a
record class, assembled from the fragments emitted by `begin_class`,
`declare_id_field`, `declare_field` and `end_class`.  Modelled from the
spec: the driver that orders the per-field emissions (codegen.py) is not
under src/, so per spec section 4.3 the id field is resolved first and its
value is the base URI for every other field.  A non-mapping document
crashes (Python attribute error on `.get`). -/
def fromDoc (rc : RecordClass) (eu : String → String) (fresh : String)
    (doc : Val) (baseuri : String) (docRoot : Option String) :
    Except LoadFailure Inst :=
  match doc with
  | Val.map kvs =>
    match classCheck rc kvs with
    | Except.error e => Except.error e
    | Except.ok _ =>
      match idPhase rc kvs baseuri docRoot fresh with
      | Except.error e => Except.error e
      | Except.ok (idv, b) => finishLoad rc eu kvs idv b
  | _ => Except.error (LoadFailure.crash "not a mapping")

/-!
Loader graph compiler: `PythonCodeGen.type_loader` (python_codegen.py
lines 270-321) together with the TypeDef registry it interns into.
-/

/-- A loader descriptor (`codegen_base.TypeDef`): canonical name, the
construction recipe text, and the URI flags consumed by the serializer
emitter.  Field names follow the Python attribute names. -/
structure TypeDefL : Type where
  name : String
  init : String
  is_uri : Bool := false
  scoped_id : Bool := false
  ref_scope : Option Int := none
deriving DecidableEq, Repr

/-- Generic first-match association-list lookup for the registry and
vocabulary tables. -/
def lookupA {α : Type} (k : String) : List (String × α) → Option α
  | [] => none
  | (k2, v) :: rest => if k2 == k then some v else lookupA k rest

/-- The pre-registered primitive loaders (`prims`, python_codegen.py
lines 12-33), keyed by the primitive type URI. -/
def prims : List (String × TypeDefL) :=
  [ ("http://www.w3.org/2001/XMLSchema#string",
      { name := "strtype", init := "_PrimitiveLoader((str, str))" }),
    ("http://www.w3.org/2001/XMLSchema#int",
      { name := "inttype", init := "_PrimitiveLoader(int)" }),
    ("http://www.w3.org/2001/XMLSchema#long",
      { name := "inttype", init := "_PrimitiveLoader(int)" }),
    ("http://www.w3.org/2001/XMLSchema#float",
      { name := "floattype", init := "_PrimitiveLoader(float)" }),
    ("http://www.w3.org/2001/XMLSchema#double",
      { name := "floattype", init := "_PrimitiveLoader(float)" }),
    ("http://www.w3.org/2001/XMLSchema#boolean",
      { name := "booltype", init := "_PrimitiveLoader(bool)" }),
    ("https://w3id.org/cwl/salad#null",
      { name := "None_type", init := "_PrimitiveLoader(type(None))" }),
    ("https://w3id.org/cwl/salad#Any",
      { name := "Any_type", init := "_AnyLoader()" }) ]

/-- Compiler state: the interning registry `collected_types` (canonical
name to descriptor, in registration order) and the vocabulary table. -/
structure CGState : Type where
  collected : List (String × TypeDefL)
  vocab : List (String × String)
deriving DecidableEq, Repr

/-- The empty compiler state. -/
def cgEmpty : CGState := { collected := [], vocab := [] }

/-- Modelled from the spec: `CodeGenBase.declare_type` (codegen_base.py is
not under src/).  Per section 4.1 it interns by canonical name: the
existing registry entry is returned when one with the same canonical name
exists, else the candidate is registered and returned. -/
def declare_type (s : CGState) (t : TypeDefL) : TypeDefL × CGState :=
  match lookupA t.name s.collected with
  | some ex => (ex, s)
  | none => (t, { s with collected := s.collected ++ [(t.name, t)] })

/-- Modelled from the spec: `CodeGenBase.add_vocab` (codegen_base.py is
not under src/).  Per section 3, re-registering a term under a different
URI is a compile-time (schema) error; otherwise the term is recorded. -/
def add_vocab (s : CGState) (term uri : String) : Except String CGState :=
  match lookupA term s.vocab with
  | some u =>
    if u == uri then Except.ok s
    else Except.error ("term redefined: " ++ term)
  | none => Except.ok { s with vocab := s.vocab ++ [(term, uri)] }

/-- The fragment of a URI: the part after the first `#`, when present. -/
def fragmentOf (uri : String) : Option String :=
  match splitAtChar '#' uri.data with
  | none => none
  | some (_, frag) => some (String.mk frag)

/-- Modelled from the spec: `schema.shortname` (schema.py is not under
src/).  The short name of a URI is the last `/`-separated piece of its
fragment when the fragment is nonempty, else the last piece of its path. -/
def shortname (uri : String) : String :=
  match fragmentOf uri with
  | some f =>
    if f == "" then String.mk (lastSeg '/' uri.data)
    else String.mk (lastSeg '/' f.data)
  | none => String.mk (lastSeg '/' uri.data)

/-- Modelled from the spec: `schema.avro_name` (schema.py is not under
src/).  The avro name of a URI is its fragment truncated to the part after
the last `/` of the fragment; a URI without a fragment names itself. -/
def avro_name (uri : String) : String :=
  match fragmentOf uri with
  | some f => if f == "" then uri else String.mk (lastSeg '/' f.data)
  | none => uri

/-- `PythonCodeGen.safe_name` (python_codegen.py lines 47-53): the avro
name, with the Python reserved words `class` and `in` suffixed by `_`. -/
def safe_name (n : String) : String :=
  let avn := avro_name n
  if avn == "class" || avn == "in" then avn ++ "_" else avn

mutual
/-- A schema type declaration as `type_loader` dispatches on it: a plain
string (primitive URI or a reference to an already collected loader), an
array shape, an enum shape, a record shape, a sequence of alternatives, or
a mapping with an unrecognized `type` tag. -/
inductive TypeDecl : Type where
  | strD (s : String) : TypeDecl
  | arrD (items : TypeDecl) : TypeDecl
  | enumD (name : String) (symbols : List String) : TypeDecl
  | recordD (name : String) : TypeDecl
  | unionD (alts : TypeDeclList) : TypeDecl
  | badD (typeTag : String) : TypeDecl

inductive TypeDeclList : Type where
  | nil : TypeDeclList
  | cons (hd : TypeDecl) (tl : TypeDeclList) : TypeDeclList
end

/-- Enum vocabulary registration: `add_vocab(shortname(sym), sym)` for
each symbol, in order (python_codegen.py lines 293-294). -/
def addSymbols (s : CGState) : List String → Except String CGState
  | [] => Except.ok s
  | sym :: rest =>
    match add_vocab s (shortname sym) sym with
    | Except.error e => Except.error e
    | Except.ok s1 => addSymbols s1 rest

/-- The enum loader recipe text:
`_EnumLoader(("a", "b",))` over the safe names of the symbols. -/
def enumInit (symbols : List String) : String :=
  "_EnumLoader((\"" ++
    String.intercalate "\", \"" (symbols.map safe_name) ++ "\",))"

mutual
/-- `PythonCodeGen.type_loader` (python_codegen.py lines 270-321), with
the compiler state threaded explicitly.  A sequence of alternatives
compiles each alternative in order and interns a union loader named after
the member names joined by `_or_`; an array shape interns
`array_of_` the item name; an enum registers its symbols in the
vocabulary and interns by safe class name; a record interns a lazy
by-name loader; an unrecognized mapping raises a schema error; a string
is a primitive or a reference to an already collected loader (a missing
reference is a Python `KeyError`). -/
def type_loader : TypeDecl → CGState → Except String (TypeDefL × CGState)
  | TypeDecl.strD s, st =>
    match lookupA s prims with
    | some t => Except.ok (t, st)
    | none =>
      match lookupA (safe_name s ++ "Loader") st.collected with
      | some t => Except.ok (t, st)
      | none => Except.error ("KeyError: " ++ safe_name s ++ "Loader")
  | TypeDecl.arrD items, st =>
    match type_loader items st with
    | Except.error e => Except.error e
    | Except.ok (i, st1) =>
      Except.ok (declare_type st1
        { name := "array_of_" ++ i.name,
          init := "_ArrayLoader(" ++ i.name ++ ")" })
  | TypeDecl.enumD n symbols, st =>
    match addSymbols st symbols with
    | Except.error e => Except.error e
    | Except.ok st1 =>
      Except.ok (declare_type st1
        { name := safe_name n ++ "Loader", init := enumInit symbols })
  | TypeDecl.recordD n, st =>
    Except.ok (declare_type st
      { name := safe_name n ++ "Loader",
        init := "_RecordLoader(" ++ safe_name n ++ ")" })
  | TypeDecl.unionD alts, st =>
    match type_loader_list alts st with
    | Except.error e => Except.error e
    | Except.ok (subs, st1) =>
      Except.ok (declare_type st1
        { name := "union_of_" ++
            String.intercalate "_or_" (subs.map TypeDefL.name),
          init := "_UnionLoader((" ++
            String.intercalate ", " (subs.map TypeDefL.name) ++ ",))" })
  | TypeDecl.badD t, _ => Except.error ("wft " ++ t)

def type_loader_list : TypeDeclList → CGState →
    Except String (List TypeDefL × CGState)
  | TypeDeclList.nil, st => Except.ok ([], st)
  | TypeDeclList.cons d ds, st =>
    match type_loader d st with
    | Except.error e => Except.error e
    | Except.ok (t, st1) =>
      match type_loader_list ds st1 with
      | Except.error e => Except.error e
      | Except.ok (ts, st2) => Except.ok (t :: ts, st2)
end

mutual
/-- The canonical name of a compiled shape, as the spec describes it: a
deterministic function of the loader kind and the canonical names of the
constituents, independent of the compiler state. -/
def canonName : TypeDecl → Option String
  | TypeDecl.strD s =>
    match lookupA s prims with
    | some t => some t.name
    | none => some (safe_name s ++ "Loader")
  | TypeDecl.arrD items =>
    (canonName items).map (fun n => "array_of_" ++ n)
  | TypeDecl.enumD n _ => some (safe_name n ++ "Loader")
  | TypeDecl.recordD n => some (safe_name n ++ "Loader")
  | TypeDecl.unionD alts =>
    (canonNameList alts).map
      (fun ns => "union_of_" ++ String.intercalate "_or_" ns)
  | TypeDecl.badD _ => none

def canonNameList : TypeDeclList → Option (List String)
  | TypeDeclList.nil => some []
  | TypeDeclList.cons d ds =>
    match canonName d with
    | none => none
    | some n =>
      match canonNameList ds with
      | none => none
      | some ns => some (n :: ns)
end

/-- Registry well-formedness: every entry is keyed by its own canonical
name. -/
def RegWf (s : CGState) : Prop :=
  ∀ p ∈ s.collected, (p.2).name = p.1

/-- One compiler state extends another when every registry entry and every
vocabulary entry of the smaller state is still found unchanged in the
larger one. -/
def SExtends (s2 s1 : CGState) : Prop :=
  (∀ k v, lookupA k s1.collected = some v → lookupA k s2.collected = some v)
  ∧ (∀ k v, lookupA k s1.vocab = some v → lookupA k s2.vocab = some v)

/-!
Record serialization: the `save` routine emitted by `begin_class`,
`declare_field` and `end_class` (python_codegen.py lines 173-200, 237-249
and 398-437).
-/

/-- The base URL the serializer emitter chooses for a field
(python_codegen.py lines 398-401): the caller-supplied `base_url` when the
field is the record's id field or the record has no id field, else the
record's own resolved id (`self.idfield`). -/
def fieldBase (idfield fname base_url ownId : String) : String :=
  if fname == idfield || idfield == "" then base_url else ownId

/-- The serialization action the generated `save` performs for one present
field: a `save_relative_uri(value, base, scoped_id, ref_scope,
relative_uris)` call for a URI-flagged field, or a recursive
`save(value, top=False, base_url=base, relative_uris=...)` call. -/
inductive SaveOut : Type where
  | rel (value : Val) (base : String) (scopedId : Bool)
      (refScope : Option Int) (relativeUris : Bool) : SaveOut
  | sub (value : Val) (base : String) (relativeUris : Bool) : SaveOut

/-- A field as the serializer emitter sees it: its emitted key, the URI
flags of its compiled loader, and the in-memory value of the instance
being saved (`none` embeds Python `None`, which is skipped). -/
structure SaveField : Type where
  name : String
  isUri : Bool
  scopedId : Bool
  refScope : Option Int
  value : Option Val

/-- The per-field part of the generated `save`, in declaration order: a
field whose in-memory value is `None` emits nothing; a URI-flagged field
emits a `save_relative_uri` call and any other field a recursive `save`
call, both against the base chosen by `fieldBase`. -/
def saveFields (idfield ownId : String) :
    List SaveField → String → Bool → List (String × SaveOut)
  | [], _, _ => []
  | f :: rest, base_url, ru =>
    match f.value with
    | none => saveFields idfield ownId rest base_url ru
    | some v =>
      (f.name,
        if f.isUri then
          SaveOut.rel v (fieldBase idfield f.name base_url ownId)
            f.scopedId f.refScope ru
        else
          SaveOut.sub v (fieldBase idfield f.name base_url ownId) ru)
        :: saveFields idfield ownId rest base_url ru

/-!
URI resolution and serialization.  `expand_url` and `save_relative_uri`
live in python_codegen_support.py, which is not under src/; the module is
modelled from the spec, section 4.5.
-/

/-- An absolute URI for this model: one that carries a scheme separator. -/
def isAbsoluteUri (u : String) : Bool :=
  hasSub (String.data "://") u.data

/-- The document root of a URI: everything before its first `#`. -/
def stripFrag (u : String) : String :=
  match splitAtChar '#' u.data with
  | none => u
  | some (l, _) => String.mk l

/-- Modelled from the spec: relative reference resolution of section 4.5.
With `scopedId` the text is scoped under the enclosing record's id (the
base) rather than the document root; without it the text becomes a
fragment of the document root of the base. -/
def resolveRelative (base v : String) (scopedId : Bool) : String :=
  if scopedId then
    if base.data.contains '#' then base ++ "/" ++ v else base ++ "#" ++ v
  else stripFrag base ++ "#" ++ v

/-- Modelled from the spec: `expand(value, base, scopedId, vocabTerm)` of
section 4.5 (`expand_url` in python_codegen_support.py, not under src/).
A recognized vocabulary term is substituted with its full URI; an absolute
input is returned unchanged; anything else is resolved relative to the
base, honoring `scopedId`. -/
def expand (vocab : List (String × String)) (value base : String)
    (scopedId vocabTerm : Bool) : String :=
  match (if vocabTerm then lookupA value vocab else none) with
  | some uri => uri
  | none =>
    if isAbsoluteUri value then value else resolveRelative base value scopedId

/-- The vocabulary terms that map back exactly to the given URI. -/
def termCandidates (vocab : List (String × String)) (u : String) :
    List String :=
  vocab.filterMap (fun p => if p.2 == u then some p.1 else none)

/-- The text left after removing a base prefix, as a candidate compact
form; empty when the URI does not start with that prefix. -/
def afterBase (pre u : String) : List String :=
  if leadsWith pre.data u.data then [String.mk (u.data.drop pre.data.length)]
  else []

/-- Modelled from the spec: the `refScope` adjustment of the base
(section 4.2): `0` strips the base to the document root, unset keeps the
full base. -/
def applyRefScope (base : String) (refScope : Option Int) : String :=
  match refScope with
  | none => base
  | some n => if n == 0 then stripFrag base else base

/-- The candidate compact forms for a URI under a base: matching
vocabulary terms, the suffix after the (refScope-adjusted) base, and the
absolute form itself. -/
def candsFor (vocab : List (String × String)) (u base : String)
    (refScope : Option Int) : List String :=
  let b := applyRefScope base refScope
  termCandidates vocab u ++ afterBase (b ++ "/") u ++ afterBase (b ++ "#") u
    ++ afterBase (stripFrag b ++ "#") u ++ [u]

/-- The shortest string of a list (first among equals). -/
def pickShortest : List String → Option String
  | [] => none
  | c :: rest =>
    match pickShortest rest with
    | none => some c
    | some d => if d.length < c.length then some d else some c

/-- Modelled from the spec: `compact(value, baseUrl, scopedId, refScope,
relativeEnabled)` of section 4.5 (`save_relative_uri` in
python_codegen_support.py, not under src/).  With `relativeEnabled` false
the absolute form is emitted; otherwise the shortest candidate form that
re-expands to the value is produced, preferring nothing that does not
re-resolve exactly. -/
def compact (vocab : List (String × String)) (u base : String)
    (scopedId : Bool) (refScope : Option Int) (relativeEnabled : Bool) :
    String :=
  if relativeEnabled then
    match pickShortest ((candsFor vocab u base refScope).filter
        (fun c => expand vocab c base scopedId true == u)) with
    | some c => c
    | none => u
  else u

/-- A URI is reachable under a base, scope and refScope when some
candidate compact form expands back to it. -/
def reachableUri (vocab : List (String × String)) (u base : String)
    (scopedId : Bool) (refScope : Option Int) : Bool :=
  (candsFor vocab u base refScope).any
    (fun c => expand vocab c base scopedId true == u)

/-!
Concrete objects used by the theorem witnesses and counterexamples below.
-/

/-- A field loader that always fails with the given message. -/
def loaderFail (m : String) : Val → String → Except VErr Val :=
  fun _ _ => Except.error (VErr.mk m [])

/-- A field loader that echoes the raw value. -/
def loaderOk : Val → String → Except VErr Val :=
  fun v _ => Except.ok v

/-- A record class with two required fields whose loaders always fail. -/
def rcW : RecordClass :=
  { classname := "W", hasClassField := false, idField := none,
    fields := [ { name := "a", optional := false, loader := loaderFail "badA" },
                { name := "b", optional := false, loader := loaderFail "badB" } ],
    attrs := ["a", "b"] }

/-- A record class with a `class` discriminator and no other fields. -/
def rcC : RecordClass :=
  { classname := "Foo", hasClassField := true, idField := none,
    fields := [], attrs := ["class"] }

/-- An optional id field whose loader accepts exactly strings. -/
def idfW : IdField :=
  { name := "id", optional := true,
    loader := fun v _ =>
      match v with
      | Val.str s => Except.ok s
      | _ => Except.error (VErr.mk "not a str" []) }

/-- A record class with an optional id field and no other fields. -/
def rcI : RecordClass :=
  { classname := "R", hasClassField := false, idField := some idfW,
    fields := [], attrs := ["id"] }

/-- A record declaration whose safe name ends in `Loader_or_foo`;
together with `cexB` it produces colliding union canonical names. -/
def cexA : TypeDecl := TypeDecl.recordD "fooLoader_or_foo"

/-- A record declaration named `foo`. -/
def cexB : TypeDecl := TypeDecl.recordD "foo"

/-- The union over `cexA` then `cexB`. -/
def cexU1 : TypeDecl :=
  TypeDecl.unionD (TypeDeclList.cons cexA (TypeDeclList.cons cexB TypeDeclList.nil))

/-- The union over the same alternatives in the other order. -/
def cexU2 : TypeDecl :=
  TypeDecl.unionD (TypeDeclList.cons cexB (TypeDeclList.cons cexA TypeDeclList.nil))

/-- Sequential compilation of two declarations from one state, returning
both resulting descriptors. -/
def compileTwice (d1 d2 : TypeDecl) (s : CGState) :
    Except String (TypeDefL × TypeDefL) :=
  match type_loader d1 s with
  | Except.error e => Except.error e
  | Except.ok (t1, s1) =>
    match type_loader d2 s1 with
    | Except.error e => Except.error e
    | Except.ok (t2, _) => Except.ok (t1, t2)

/-- The array-of-int declaration used by the interning witness. -/
def dW : TypeDecl :=
  TypeDecl.arrD (TypeDecl.strD "http://www.w3.org/2001/XMLSchema#int")

/-- The descriptor the interning witness produces. -/
def tW : TypeDefL :=
  { name := "array_of_inttype", init := "_ArrayLoader(inttype)" }

/-- The registry state after compiling `dW` from the empty state. -/
def sW : CGState :=
  { collected := [("array_of_inttype", tW)], vocab := [] }

/-- The record loader descriptor for a record named `x`. -/
def atdW : TypeDefL :=
  { name := "xLoader", init := "_RecordLoader(x)" }

/-- A one-element alternatives list over the record `x`. -/
def altsW : TypeDeclList :=
  TypeDeclList.cons (TypeDecl.recordD "x") TypeDeclList.nil

/-- The state after compiling the alternatives of `altsW`. -/
def s1W : CGState :=
  { collected := [("xLoader", atdW)], vocab := [] }

/-- The union descriptor over `altsW`. -/
def utdW : TypeDefL :=
  { name := "union_of_xLoader", init := "_UnionLoader((xLoader,))" }

/-- The state after compiling the union over `altsW`. -/
def s2W : CGState :=
  { collected := [("xLoader", atdW), ("union_of_xLoader", utdW)],
    vocab := [] }

/-- An instance being saved: its id field carries the record's resolved
own id and a second URI-flagged field carries a reference. -/
def cexSaveFlds : List SaveField :=
  [ { name := "id", isUri := true, scopedId := true, refScope := none,
      value := some (Val.str "http://x/#this") },
    { name := "ref", isUri := true, scopedId := false, refScope := none,
      value := some (Val.str "http://x/#other") } ]

/-!
Theorems.  One theorem per claim, preceded by shared helper lemmas.
-/

/-- A document key survives the undeclared-key scan when it is declared or
namespaced. -/
def okKey (attrs : List String) (k : String) : Bool :=
  attrs.contains k || k.data.contains ':'

/-- Appending to a string is injective in the appended part. -/
theorem string_append_cancel (s a b : String) (h : s ++ a = s ++ b) : a = b := by
  have h2 := congrArg String.data h
  simp [String.data_append] at h2
  exact String.ext h2

/-- The error list produced by the field pass is exactly one wrapped error
per failing field, in declaration order, each field contributing
independently of the others. -/
theorem processFields_errors (flds : List FieldD) (kvs : List (String × Val))
    (b : String) :
    (processFields flds kvs b).1 =
      flds.filterMap (fun f => fieldAttempt f kvs b) := by
  induction flds with
  | nil => rfl
  | cons f rest ih =>
    rw [List.filterMap_cons]
    by_cases hopt : (f.optional && (alookup f.name kvs).isNone) = true
    · have hfa : fieldAttempt f kvs b = none := by simp [fieldAttempt, hopt]
      have hpf : (processFields (f :: rest) kvs b).1 =
          (processFields rest kvs b).1 := by simp [processFields, hopt]
      rw [hfa, hpf, ih]
    · simp only [Bool.not_eq_true] at hopt
      cases hl : f.loader ((alookup f.name kvs).getD Val.null) b with
      | ok v =>
        have hfa : fieldAttempt f kvs b = none := by
          simp [fieldAttempt, hopt, hl]
        have hpf : (processFields (f :: rest) kvs b).1 =
            (processFields rest kvs b).1 := by simp [processFields, hopt, hl]
        rw [hfa, hpf, ih]
      | error e =>
        have hfa : fieldAttempt f kvs b =
            some (VErr.mk ("the `" ++ f.name ++ "` field is not valid because:")
              [e]) := by
          simp [fieldAttempt, hopt, hl]
        have hpf : (processFields (f :: rest) kvs b).1 =
            VErr.mk ("the `" ++ f.name ++ "` field is not valid because:") [e]
              :: (processFields rest kvs b).1 := by
          simp [processFields, hopt, hl]
        rw [hfa, hpf, ih]

/-- The field pass distributes over concatenation of field lists. -/
theorem processFields_append (xs ys : List FieldD) (kvs : List (String × Val))
    (b : String) :
    processFields (xs ++ ys) kvs b =
      ((processFields xs kvs b).1 ++ (processFields ys kvs b).1,
       (processFields xs kvs b).2 ++ (processFields ys kvs b).2) := by
  induction xs with
  | nil => simp [processFields]
  | cons f rest ih =>
    rw [List.cons_append]
    by_cases hopt : (f.optional && (alookup f.name kvs).isNone) = true
    · simp only [processFields, hopt, if_pos, ih]
      simp
    · simp only [Bool.not_eq_true] at hopt
      cases hl : f.loader ((alookup f.name kvs).getD Val.null) b with
      | ok v =>
        simp only [processFields, hopt, hl, ih]
        simp
      | error e =>
        simp only [processFields, hopt, hl, ih]
        simp

/-- Claim C1: in a generated `fromDoc`, every declared non-id field is
attempted in declaration order regardless of earlier field failures, a
failing field contributes exactly one error naming it, and a non-empty
error list makes `fromDoc` raise exactly one error naming the record type
whose children are exactly the collected errors. -/
theorem fromDoc_aggregates_field_errors (rc : RecordClass)
    (eu : String → String) (fresh : String) (kvs : List (String × Val))
    (b : String) (dr : Option String) (iv : Option String) (b2 : String)
    (hclass : classCheck rc kvs = Except.ok ())
    (hid : idPhase rc kvs b dr fresh = Except.ok (iv, b2)) :
    (processFields rc.fields kvs b2).1 =
        rc.fields.filterMap (fun f => fieldAttempt f kvs b2)
    ∧ ((processFields rc.fields kvs b2).1 ++
         (scanExtensions rc.attrs (attrsStr rc.attrs) eu kvs).1 ≠ [] →
       fromDoc rc eu fresh (Val.map kvs) b dr =
         Except.error (LoadFailure.vex
           (VErr.mk ("Trying '" ++ rc.classname ++ "'")
             ((processFields rc.fields kvs b2).1 ++
              (scanExtensions rc.attrs (attrsStr rc.attrs) eu kvs).1)))) := by
  refine ⟨processFields_errors _ _ _, fun hne => ?_⟩
  have hemp : ((processFields rc.fields kvs b2).1 ++
      (scanExtensions rc.attrs (attrsStr rc.attrs) eu kvs).1).isEmpty
        = false :=
    List.isEmpty_eq_false.mpr hne
  simp only [fromDoc, hclass, hid, finishLoad, hemp, Bool.false_eq_true,
    if_false]

/-- Witness for C1: a record with two invalid fields raises one error with
exactly those two children. -/
theorem fromDoc_aggregates_field_errors_witness :
    classCheck rcW [] = Except.ok ()
    ∧ idPhase rcW [] "base" none "u" = Except.ok (none, "base")
    ∧ fromDoc rcW (fun k => k) "u" (Val.map []) "base" none =
        Except.error (LoadFailure.vex (VErr.mk "Trying 'W'"
          [VErr.mk "the `a` field is not valid because:" [VErr.mk "badA" []],
           VErr.mk "the `b` field is not valid because:" [VErr.mk "badB" []]]))
    ∧ (VErr.mk "Trying 'W'"
          [VErr.mk "the `a` field is not valid because:" [VErr.mk "badA" []],
           VErr.mk "the `b` field is not valid because:"
             [VErr.mk "badB" []]]).children.length = 2 := by
  refine ⟨rfl, rfl, ?_, rfl⟩
  exact (fromDoc_aggregates_field_errors rcW (fun k => k) "u" [] "base" none
    none "base" rfl rfl).2 (fun h => List.noConfusion h)

/-- Claim C4: when a record has a `class` discriminator and the input's
`class` entry is not that record's class name, `fromDoc` raises the
childless mismatch error immediately, independent of the declared fields,
so the mismatch never joins the aggregated field-error list. -/
theorem class_mismatch_fatal (rc : RecordClass) (eu : String → String)
    (fresh : String) (kvs : List (String × Val)) (b : String)
    (dr : Option String) (flds2 : List FieldD)
    (hcf : rc.hasClassField = true)
    (hmm : isClassMatch (alookup "class" kvs) rc.classname = false) :
    fromDoc rc eu fresh (Val.map kvs) b dr =
      Except.error (LoadFailure.vex (VErr.mk ("Not a " ++ rc.classname) []))
    ∧ fromDoc { rc with fields := flds2 } eu fresh (Val.map kvs) b dr =
      Except.error (LoadFailure.vex (VErr.mk ("Not a " ++ rc.classname) [])) := by
  constructor <;> simp [fromDoc, classCheck, hcf, hmm]

/-- Witness for C4: a `class`-discriminated record rejects a document
whose `class` entry names a different class. -/
theorem class_mismatch_fatal_witness :
    rcC.hasClassField = true
    ∧ isClassMatch (alookup "class" [("class", Val.str "Bar")]) rcC.classname
        = false
    ∧ fromDoc rcC (fun k => k) "u" (Val.map [("class", Val.str "Bar")])
        "base" none =
      Except.error (LoadFailure.vex (VErr.mk "Not a Foo" [])) :=
  ⟨rfl, rfl,
    (class_mismatch_fatal rcC (fun k => k) "u" [("class", Val.str "Bar")]
      "base" none [] rfl rfl).1⟩

/-- Claim C5: the undeclared-key scan stores every undeclared namespaced
key, expanded, in the extension-fields map until the first undeclared
non-namespaced key, which produces one invalid-field error naming it and
stops the scan, so at most one invalid-field error arises per attempt. -/
theorem undeclared_key_scan (attrs : List String) (astr : String)
    (eu : String → String) (kvs : List (String × Val)) :
    (scanExtensions attrs astr eu kvs).2 =
      (kvs.takeWhile (fun p => okKey attrs p.1)).filterMap
        (fun p => if p.1 ∈ attrs then none else some (eu p.1, p.2))
    ∧ (scanExtensions attrs astr eu kvs).1 =
        (match kvs.dropWhile (fun p => okKey attrs p.1) with
         | [] => []
         | p :: _ =>
           [VErr.mk ("invalid field `" ++ p.1 ++ "`, expected one of: " ++ astr)
             []])
    ∧ (scanExtensions attrs astr eu kvs).1.length ≤ 1 := by
  induction kvs with
  | nil => exact ⟨rfl, rfl, by simp [scanExtensions]⟩
  | cons p rest ih =>
    obtain ⟨k, v⟩ := p
    obtain ⟨ih1, ih2, ih3⟩ := ih
    by_cases hmem : k ∈ attrs
    · have hok : okKey attrs k = true := by simp [okKey, hmem]
      refine ⟨?_, ?_, ?_⟩
      · simp [scanExtensions, List.takeWhile_cons, hok, hmem, ih1]
      · simp [scanExtensions, List.dropWhile_cons, hok, hmem, ih2]
      · simp [scanExtensions, hmem, ih3]
    · by_cases hcolm : ':' ∈ k.data
      · have hok : okKey attrs k = true := by simp [okKey, hcolm]
        refine ⟨?_, ?_, ?_⟩
        · simp [scanExtensions, List.takeWhile_cons, hok, hmem, hcolm, ih1]
        · simp [scanExtensions, List.dropWhile_cons, hok, hmem, hcolm, ih2]
        · simp [scanExtensions, hmem, hcolm, ih3]
      · have hok : okKey attrs k = false := by simp [okKey, hmem, hcolm]
        refine ⟨?_, ?_, ?_⟩
        · simp [scanExtensions, List.takeWhile_cons, hok, hmem, hcolm]
        · simp [scanExtensions, List.dropWhile_cons, hok, hmem, hcolm]
        · simp [scanExtensions, hmem, hcolm]

/-- Claim C8: an optional id absent from the input with no docRoot is
synthesized with the blank-node prefix, and distinct per-call fresh
tokens give distinct synthesized ids. -/
theorem synthetic_id_fresh (idf : IdField) (kvs : List (String × Val))
    (b f1 f2 : String)
    (hopt : idf.optional = true) (habs : alookup idf.name kvs = none)
    (hne : f1 ≠ f2) :
    idStep idf kvs b none f1 = Except.ok ("_:" ++ f1, "_:" ++ f1)
    ∧ idStep idf kvs b none f1 ≠ idStep idf kvs b none f2 := by
  have h1 : idStep idf kvs b none f1 = Except.ok ("_:" ++ f1, "_:" ++ f1) := by
    simp [idStep, habs, hopt]
  have h2 : idStep idf kvs b none f2 = Except.ok ("_:" ++ f2, "_:" ++ f2) := by
    simp [idStep, habs, hopt]
  refine ⟨h1, ?_⟩
  rw [h1, h2]
  intro hc
  have hp := Except.ok.inj hc
  have hs : "_:" ++ f1 = "_:" ++ f2 := congrArg Prod.fst hp
  exact hne (string_append_cancel _ _ _ hs)

/-- Witness for C8: two loads of an id-less document with different fresh
tokens synthesize different blank-node ids. -/
theorem synthetic_id_fresh_witness :
    idfW.optional = true
    ∧ alookup idfW.name [] = none
    ∧ ("u1" : String) ≠ "u2"
    ∧ idStep idfW [] "base" none "u1" = Except.ok ("_:u1", "_:u1")
    ∧ idStep idfW [] "base" none "u1" ≠ idStep idfW [] "base" none "u2" := by
  have h := synthetic_id_fresh idfW [] "base" "u1" "u2" rfl rfl (by decide)
  exact ⟨rfl, rfl, by decide, h.1, h.2⟩

/-- Claim C9: when the id key is absent and a docRoot is supplied, the id
becomes the docRoot independently of the fresh token (no Missing error, no
synthetic id), and it is the base URI for decoding all other fields. -/
theorem docroot_id (rc : RecordClass) (idf : IdField) (eu : String → String)
    (fresh fresh2 : String) (kvs : List (String × Val)) (b r : String)
    (hid : rc.idField = some idf) (habs : alookup idf.name kvs = none)
    (hclass : classCheck rc kvs = Except.ok ()) :
    idPhase rc kvs b (some r) fresh = Except.ok (some r, r)
    ∧ idPhase rc kvs b (some r) fresh2 = idPhase rc kvs b (some r) fresh
    ∧ fromDoc rc eu fresh (Val.map kvs) b (some r) =
        finishLoad rc eu kvs (some r) r := by
  have h1 : ∀ fr, idPhase rc kvs b (some r) fr = Except.ok (some r, r) := by
    intro fr
    simp [idPhase, hid, idStep, habs]
  refine ⟨h1 fresh, (h1 fresh2).trans (h1 fresh).symm, ?_⟩
  simp [fromDoc, hclass, h1 fresh]

/-- Witness for C9: a record with an optional id decodes an id-less
document against a supplied docRoot. -/
theorem docroot_id_witness :
    rcI.idField = some idfW
    ∧ alookup idfW.name [] = none
    ∧ classCheck rcI [] = Except.ok ()
    ∧ idPhase rcI [] "base" (some "http://r/") "u" =
        Except.ok (some "http://r/", "http://r/")
    ∧ fromDoc rcI (fun k => k) "u" (Val.map []) "base" (some "http://r/") =
        finishLoad rcI (fun k => k) [] (some "http://r/") "http://r/" := by
  have h := docroot_id rcI idfW (fun k => k) "u" "u2" [] "base" "http://r/"
    rfl rfl rfl
  exact ⟨rfl, rfl, rfl, h.1, h.2.2⟩

/-- Claim C10: an optional declared field whose key is absent is set to
`None` without invoking its loader (the result does not depend on the
loader) and contributes no error. -/
theorem optional_absent_skips_loader (pre post : List FieldD) (f : FieldD)
    (g : Val → String → Except VErr Val) (kvs : List (String × Val))
    (b : String)
    (hopt : f.optional = true) (habs : alookup f.name kvs = none) :
    processFields (pre ++ f :: post) kvs b =
      ((processFields pre kvs b).1 ++ (processFields post kvs b).1,
       (processFields pre kvs b).2 ++
         (f.name, none) :: (processFields post kvs b).2)
    ∧ processFields (pre ++ f :: post) kvs b =
      processFields (pre ++ { f with loader := g } :: post) kvs b := by
  have hcond : (f.optional && (alookup f.name kvs).isNone) = true := by
    simp [hopt, habs]
  have hhead : processFields (f :: post) kvs b =
      ((processFields post kvs b).1,
       (f.name, none) :: (processFields post kvs b).2) := by
    simp [processFields, hcond]
  have hhead2 : processFields ({ f with loader := g } :: post) kvs b =
      ((processFields post kvs b).1,
       (f.name, none) :: (processFields post kvs b).2) := by
    have hcond2 : (({ f with loader := g } : FieldD).optional &&
        (alookup ({ f with loader := g } : FieldD).name kvs).isNone)
          = true := by
      simp [hopt, habs]
    simp [processFields, hcond2]
  constructor
  · rw [processFields_append, hhead]
  · rw [processFields_append, processFields_append, hhead, hhead2]

/-- Witness for C10: an absent optional field yields a `None` slot, no
error, and the same result as with a replaced loader. -/
theorem optional_absent_skips_loader_witness :
    (⟨"o", true, loaderFail "never"⟩ : FieldD).optional = true
    ∧ alookup "o" [("r", Val.str "v")] = none
    ∧ processFields [⟨"r", false, loaderOk⟩, ⟨"o", true, loaderFail "never"⟩]
        [("r", Val.str "v")] "base" =
      ([], [("r", some (Val.str "v")), ("o", none)]) := by
  refine ⟨rfl, rfl, ?_⟩
  exact (optional_absent_skips_loader [⟨"r", false, loaderOk⟩] []
    (⟨"o", true, loaderFail "never"⟩ : FieldD) loaderOk
    [("r", Val.str "v")] "base" rfl rfl).1

/-- Claim C6 (amended): each present field serializes against the base
chosen by `fieldBase`: the caller-supplied `base_url` when the field is
the id field (or there is no id field), else the record's own resolved
id; URI-flagged fields go through `save_relative_uri` and other fields
recurse into `save`, with the same base choice. -/
theorem save_base_choice (idfield ownId : String) (flds : List SaveField)
    (base_url : String) (ru : Bool) :
    saveFields idfield ownId flds base_url ru =
      flds.filterMap (fun f => f.value.map (fun v =>
        (f.name,
         if f.isUri then
           SaveOut.rel v (fieldBase idfield f.name base_url ownId)
             f.scopedId f.refScope ru
         else
           SaveOut.sub v (fieldBase idfield f.name base_url ownId) ru)))
    ∧ ∀ fn, fieldBase idfield fn base_url ownId =
        if fn = idfield ∨ idfield = "" then base_url else ownId := by
  constructor
  · induction flds with
    | nil => rfl
    | cons f rest ih =>
      rw [List.filterMap_cons]
      cases hv : f.value with
      | none => simp only [saveFields, hv, Option.map_none']; exact ih
      | some v => simp only [saveFields, hv, Option.map_some']; rw [ih]
  · intro fn
    by_cases h1 : fn = idfield
    · simp [fieldBase, h1]
    · by_cases h2 : idfield = ""
      · simp [fieldBase, h1, h2]
      · simp [fieldBase, h1, h2]

/-- Counterexample for C6 as stated: the id field is serialized against
the caller-supplied base (the enclosing context), not the record's own
id, and the other URI field against the record's own id, not the
enclosing base. -/
theorem save_base_choice_cex :
    saveFields "id" "http://x/#this" cexSaveFlds "http://parent/" true =
      [("id", SaveOut.rel (Val.str "http://x/#this") "http://parent/"
          true none true),
       ("ref", SaveOut.rel (Val.str "http://x/#other") "http://x/#this"
          false none true)]
    ∧ ("http://parent/" : String) ≠ "http://x/#this"
    ∧ ("http://x/#this" : String) ≠ "http://parent/" :=
  ⟨rfl, by decide, by decide⟩

/-- The shortest-candidate choice returns an element of its input. -/
theorem pickShortest_mem (l : List String) :
    ∀ c, pickShortest l = some c → c ∈ l := by
  induction l with
  | nil => intro c h; simp [pickShortest] at h
  | cons a rest ih =>
    intro c h
    simp only [pickShortest] at h
    cases hr : pickShortest rest with
    | none =>
      rw [hr] at h
      cases Option.some.inj h
      exact List.mem_cons_self a rest
    | some d =>
      rw [hr] at h
      dsimp only at h
      by_cases hl : d.length < a.length
      · rw [if_pos hl] at h
        cases Option.some.inj h
        exact List.mem_cons_of_mem a (ih _ hr)
      · rw [if_neg hl] at h
        cases Option.some.inj h
        exact List.mem_cons_self a rest

/-- The shortest-candidate choice succeeds on a non-empty list. -/
theorem pickShortest_ne_nil (l : List String) (h : l ≠ []) :
    ∃ c, pickShortest l = some c := by
  cases l with
  | nil => exact absurd rfl h
  | cons a rest =>
    cases hpr : pickShortest rest with
    | none => exact ⟨a, by simp [pickShortest, hpr]⟩
    | some d =>
      by_cases hl : d.length < a.length
      · exact ⟨d, by simp [pickShortest, hpr, hl]⟩
      · exact ⟨a, by simp [pickShortest, hpr, hl]⟩

/-- Claim C7: for every absolute URI reachable under a base, scope and
refScope, expanding its compacted form yields the URI back, so the URI
serialization and the URI resolution are mutual inverses on those
inputs. -/
theorem expand_compact_roundtrip (vocab : List (String × String))
    (u base : String) (scopedId : Bool) (refScope : Option Int)
    (habs : isAbsoluteUri u = true)
    (hreach : reachableUri vocab u base scopedId refScope = true) :
    expand vocab (compact vocab u base scopedId refScope true) base scopedId
      true = u := by
  have hne : (candsFor vocab u base refScope).filter
      (fun c => expand vocab c base scopedId true == u) ≠ [] := by
    unfold reachableUri at hreach
    rw [List.any_eq_true] at hreach
    obtain ⟨x, hx, hpx⟩ := hreach
    intro hnil
    have hxm : x ∈ (candsFor vocab u base refScope).filter
        (fun c => expand vocab c base scopedId true == u) :=
      List.mem_filter.mpr ⟨hx, hpx⟩
    rw [hnil] at hxm
    exact List.not_mem_nil x hxm
  obtain ⟨c, hc⟩ := pickShortest_ne_nil _ hne
  have hcm := pickShortest_mem _ c hc
  have hp := (List.mem_filter.mp hcm).2
  have heq : expand vocab c base scopedId true = u := by
    simpa [beq_iff_eq] using hp
  have hcompact : compact vocab u base scopedId refScope true = c := by
    have hstep : compact vocab u base scopedId refScope true =
        match pickShortest ((candsFor vocab u base refScope).filter
          (fun c => expand vocab c base scopedId true == u)) with
        | some c => c
        | none => u := rfl
    rw [hstep, hc]
  rw [hcompact]
  exact heq

/-- Witness for C7: a fragment URI under its document root compacts to the
bare fragment and expands back. -/
theorem expand_compact_roundtrip_witness :
    isAbsoluteUri "http://x/#b" = true
    ∧ reachableUri [] "http://x/#b" "http://x/" false none = true
    ∧ expand [] (compact [] "http://x/#b" "http://x/" false none true)
        "http://x/" false true = "http://x/#b" :=
  ⟨rfl, rfl,
   expand_compact_roundtrip [] "http://x/#b" "http://x/" false none rfl rfl⟩

/-- A successful generic lookup survives appending entries on the right. -/
theorem lookupA_append_some {α : Type} (k : String) (l m : List (String × α))
    (v : α) (h : lookupA k l = some v) : lookupA k (l ++ m) = some v := by
  induction l with
  | nil => exact absurd h (by simp [lookupA])
  | cons p rest ih =>
    obtain ⟨k2, w⟩ := p
    rw [List.cons_append]
    unfold lookupA at h ⊢
    by_cases hk : (k2 == k) = true
    · rw [if_pos hk] at h ⊢; exact h
    · rw [if_neg hk] at h ⊢; exact ih h

/-- Appending a fresh key makes it found. -/
theorem lookupA_append_new {α : Type} (k : String) (l : List (String × α))
    (v : α) (h : lookupA k l = none) : lookupA k (l ++ [(k, v)]) = some v := by
  induction l with
  | nil => simp [lookupA]
  | cons p rest ih =>
    obtain ⟨k2, w⟩ := p
    rw [List.cons_append]
    unfold lookupA at h ⊢
    by_cases hk : (k2 == k) = true
    · rw [if_pos hk] at h; exact absurd h (by simp)
    · rw [if_neg hk] at h ⊢; exact ih h

/-- A found entry is a member of the association list. -/
theorem lookupA_mem {α : Type} (k : String) (l : List (String × α)) (v : α)
    (h : lookupA k l = some v) : (k, v) ∈ l := by
  induction l with
  | nil => simp [lookupA] at h
  | cons p rest ih =>
    obtain ⟨k2, w⟩ := p
    unfold lookupA at h
    by_cases hk : (k2 == k) = true
    · rw [if_pos hk] at h
      have hk2 : k2 = k := by simpa using hk
      cases hk2
      cases Option.some.inj h
      exact List.mem_cons_self _ _
    · rw [if_neg hk] at h
      exact List.mem_cons_of_mem _ (ih h)

/-- State extension is reflexive. -/
theorem sextends_refl (s : CGState) : SExtends s s :=
  ⟨fun _ _ h => h, fun _ _ h => h⟩

/-- State extension is transitive. -/
theorem sextends_trans {s3 s2 s1 : CGState} (h32 : SExtends s3 s2)
    (h21 : SExtends s2 s1) : SExtends s3 s1 :=
  ⟨fun k v h => h32.1 k v (h21.1 k v h), fun k v h => h32.2 k v (h21.2 k v h)⟩

/-- After interning, the candidate's canonical name is bound to the
returned descriptor. -/
theorem declare_type_lookup (s : CGState) (c : TypeDefL) :
    lookupA c.name (declare_type s c).2.collected
      = some (declare_type s c).1 := by
  unfold declare_type
  cases hl : lookupA c.name s.collected with
  | some ex => simpa using hl
  | none => exact lookupA_append_new _ _ _ hl

/-- Interning only grows the state. -/
theorem declare_type_extends (s : CGState) (c : TypeDefL) :
    SExtends (declare_type s c).2 s := by
  unfold declare_type
  cases hl : lookupA c.name s.collected with
  | some ex => exact sextends_refl s
  | none =>
    exact ⟨fun k v h => lookupA_append_some k _ _ v h, fun _ _ h => h⟩

/-- Interning a name already present returns the existing entry and does
not touch the state. -/
theorem declare_type_stable (s : CGState) (c : TypeDefL) (u : TypeDefL)
    (h : lookupA c.name s.collected = some u) : declare_type s c = (u, s) := by
  unfold declare_type
  rw [h]

/-- On a well-formed registry, interning returns a descriptor carrying the
candidate's canonical name. -/
theorem declare_type_name (s : CGState) (c : TypeDefL) (hwf : RegWf s) :
    (declare_type s c).1.name = c.name := by
  unfold declare_type
  cases hl : lookupA c.name s.collected with
  | some ex => exact hwf _ (lookupA_mem _ _ _ hl)
  | none => rfl

/-- Interning preserves registry well-formedness. -/
theorem declare_type_wf (s : CGState) (c : TypeDefL) (hwf : RegWf s) :
    RegWf (declare_type s c).2 := by
  unfold declare_type
  cases hl : lookupA c.name s.collected with
  | some ex => exact hwf
  | none =>
    intro p hp
    simp only [List.mem_append, List.mem_singleton] at hp
    cases hp with
    | inl hin => exact hwf p hin
    | inr heq => cases heq; rfl

/-- A successful vocabulary registration leaves the registry alone, binds
the term, and only grows the state. -/
theorem add_vocab_ok (s : CGState) (term uri : String) (s1 : CGState)
    (h : add_vocab s term uri = Except.ok s1) :
    s1.collected = s.collected ∧ lookupA term s1.vocab = some uri
    ∧ SExtends s1 s := by
  unfold add_vocab at h
  cases hl : lookupA term s.vocab with
  | some u2 =>
    rw [hl] at h
    dsimp only at h
    by_cases he : (u2 == uri) = true
    · rw [if_pos he] at h
      cases Except.ok.inj h
      have hu : u2 = uri := by simpa using he
      cases hu
      exact ⟨rfl, hl, sextends_refl s⟩
    · rw [if_neg he] at h
      exact absurd h (by simp)
  | none =>
    rw [hl] at h
    dsimp only at h
    cases Except.ok.inj h
    exact ⟨rfl, lookupA_append_new _ _ _ hl,
      fun k v hk => hk, fun k v hk => lookupA_append_some k _ _ v hk⟩

/-- Registering a term already bound to the same URI is the identity. -/
theorem add_vocab_stable (s : CGState) (term uri : String)
    (h : lookupA term s.vocab = some uri) :
    add_vocab s term uri = Except.ok s := by
  unfold add_vocab
  rw [h]
  simp

/-- A successful enum-symbol registration pass leaves the registry alone,
only grows the state, and running it again on any extension of its result
is the identity. -/
theorem addSymbols_ok (syms : List String) : ∀ (s s1 : CGState),
    addSymbols s syms = Except.ok s1 →
    s1.collected = s.collected ∧ SExtends s1 s
    ∧ (∀ s2, SExtends s2 s1 → addSymbols s2 syms = Except.ok s2) := by
  induction syms with
  | nil =>
    intro s s1 h
    unfold addSymbols at h
    cases Except.ok.inj h
    exact ⟨rfl, sextends_refl s, fun s2 _ => rfl⟩
  | cons sym rest ih =>
    intro s s1 h
    unfold addSymbols at h
    cases hv : add_vocab s (shortname sym) sym with
    | error e => rw [hv] at h; exact absurd h (by simp)
    | ok sh =>
      rw [hv] at h
      obtain ⟨hcol, hext, hstable⟩ := ih sh s1 h
      obtain ⟨hvcol, hvlook, hvext⟩ := add_vocab_ok s _ _ sh hv
      refine ⟨hcol.trans hvcol, sextends_trans hext hvext, ?_⟩
      intro s2 h2
      have hlook2 : lookupA (shortname sym) s2.vocab = some sym :=
        h2.2 _ _ (hext.2 _ _ hvlook)
      unfold addSymbols
      rw [add_vocab_stable s2 _ _ hlook2]
      exact hstable s2 h2

mutual
/-- Compiling a type declaration only grows the state, preserves registry
well-formedness, names the result by the canonical-name function of the
shape, and compiling the same shape again on any extension of the
resulting state returns the identical descriptor without touching the
state. -/
theorem tl_main : ∀ (d : TypeDecl) (s : CGState) (t : TypeDefL) (s' : CGState),
    RegWf s → type_loader d s = Except.ok (t, s') →
    SExtends s' s ∧ RegWf s' ∧ canonName d = some t.name
    ∧ (∀ s2, SExtends s2 s' → type_loader d s2 = Except.ok (t, s2))
  | TypeDecl.strD str, s, t, s', hwf, h => by
    unfold type_loader at h
    cases hp : lookupA str prims with
    | some t0 =>
      rw [hp] at h
      dsimp only at h
      injection h with hpair
      injection hpair with h1 h2
      subst h1
      subst h2
      refine ⟨sextends_refl s, hwf, ?_, ?_⟩
      · unfold canonName
        rw [hp]
      · intro s2 _
        unfold type_loader
        rw [hp]
    | none =>
      rw [hp] at h
      dsimp only at h
      cases hc : lookupA (safe_name str ++ "Loader") s.collected with
      | some t0 =>
        rw [hc] at h
        dsimp only at h
        injection h with hpair
        injection hpair with h1 h2
        subst h1
        subst h2
        refine ⟨sextends_refl s, hwf, ?_, ?_⟩
        · unfold canonName
          rw [hp]
          rw [hwf _ (lookupA_mem _ _ _ hc)]
        · intro s2 h2
          unfold type_loader
          rw [hp, h2.1 _ _ hc]
      | none =>
        rw [hc] at h
        exact absurd h (by simp)
  | TypeDecl.arrD items, s, t, s', hwf, h => by
    unfold type_loader at h
    cases hi : type_loader items s with
    | error e => rw [hi] at h; exact absurd h (by simp)
    | ok p =>
      obtain ⟨ti, s1⟩ := p
      rw [hi] at h
      dsimp only at h
      injection h with hpair
      obtain ⟨ext1, wf1, canon1, stable1⟩ := tl_main items s ti s1 hwf hi
      have hdl : lookupA ("array_of_" ++ ti.name) s'.collected = some t := by
        have hx := declare_type_lookup s1
          { name := "array_of_" ++ ti.name,
            init := "_ArrayLoader(" ++ ti.name ++ ")" }
        rw [hpair] at hx
        exact hx
      have hext2 : SExtends s' s1 := by
        have hx := declare_type_extends s1
          { name := "array_of_" ++ ti.name,
            init := "_ArrayLoader(" ++ ti.name ++ ")" }
        rw [hpair] at hx
        exact hx
      have hwf2 : RegWf s' := by
        have hx := declare_type_wf s1
          { name := "array_of_" ++ ti.name,
            init := "_ArrayLoader(" ++ ti.name ++ ")" } wf1
        rw [hpair] at hx
        exact hx
      have hname : t.name = "array_of_" ++ ti.name := by
        have hx := declare_type_name s1
          { name := "array_of_" ++ ti.name,
            init := "_ArrayLoader(" ++ ti.name ++ ")" } wf1
        rw [hpair] at hx
        exact hx
      refine ⟨sextends_trans hext2 ext1, hwf2, ?_, ?_⟩
      · unfold canonName
        rw [canon1]
        dsimp only [Option.map_some']
        rw [hname]
      · intro s2 h2
        unfold type_loader
        rw [stable1 s2 (sextends_trans h2 hext2)]
        dsimp only
        rw [declare_type_stable s2 _ t (h2.1 _ _ hdl)]
  | TypeDecl.enumD n symbols, s, t, s', hwf, h => by
    unfold type_loader at h
    cases ha : addSymbols s symbols with
    | error e => rw [ha] at h; exact absurd h (by simp)
    | ok s1 =>
      rw [ha] at h
      dsimp only at h
      injection h with hpair
      obtain ⟨hcol1, ext1, stable1⟩ := addSymbols_ok symbols s s1 ha
      have wf1 : RegWf s1 := by
        intro p hp
        exact hwf p (by rw [hcol1] at hp; exact hp)
      have hdl : lookupA (safe_name n ++ "Loader") s'.collected = some t := by
        have hx := declare_type_lookup s1
          { name := safe_name n ++ "Loader", init := enumInit symbols }
        rw [hpair] at hx
        exact hx
      have hext2 : SExtends s' s1 := by
        have hx := declare_type_extends s1
          { name := safe_name n ++ "Loader", init := enumInit symbols }
        rw [hpair] at hx
        exact hx
      have hwf2 : RegWf s' := by
        have hx := declare_type_wf s1
          { name := safe_name n ++ "Loader", init := enumInit symbols } wf1
        rw [hpair] at hx
        exact hx
      have hname : t.name = safe_name n ++ "Loader" := by
        have hx := declare_type_name s1
          { name := safe_name n ++ "Loader", init := enumInit symbols } wf1
        rw [hpair] at hx
        exact hx
      refine ⟨sextends_trans hext2 ext1, hwf2, ?_, ?_⟩
      · unfold canonName
        rw [hname]
      · intro s2 h2
        unfold type_loader
        rw [stable1 s2 (sextends_trans h2 hext2)]
        dsimp only
        rw [declare_type_stable s2 _ t (h2.1 _ _ hdl)]
  | TypeDecl.recordD n, s, t, s', hwf, h => by
    unfold type_loader at h
    injection h with hpair
    have hdl : lookupA (safe_name n ++ "Loader") s'.collected = some t := by
      have hx := declare_type_lookup s
        { name := safe_name n ++ "Loader",
          init := "_RecordLoader(" ++ safe_name n ++ ")" }
      rw [hpair] at hx
      exact hx
    have hext2 : SExtends s' s := by
      have hx := declare_type_extends s
        { name := safe_name n ++ "Loader",
          init := "_RecordLoader(" ++ safe_name n ++ ")" }
      rw [hpair] at hx
      exact hx
    have hwf2 : RegWf s' := by
      have hx := declare_type_wf s
        { name := safe_name n ++ "Loader",
          init := "_RecordLoader(" ++ safe_name n ++ ")" } hwf
      rw [hpair] at hx
      exact hx
    have hname : t.name = safe_name n ++ "Loader" := by
      have hx := declare_type_name s
        { name := safe_name n ++ "Loader",
          init := "_RecordLoader(" ++ safe_name n ++ ")" } hwf
      rw [hpair] at hx
      exact hx
    refine ⟨hext2, hwf2, ?_, ?_⟩
    · unfold canonName
      rw [hname]
    · intro s2 h2
      unfold type_loader
      rw [declare_type_stable s2 _ t (h2.1 _ _ hdl)]
  | TypeDecl.unionD alts, s, t, s', hwf, h => by
    unfold type_loader at h
    cases hl : type_loader_list alts s with
    | error e => rw [hl] at h; exact absurd h (by simp)
    | ok p =>
      obtain ⟨subs, s1⟩ := p
      rw [hl] at h
      dsimp only at h
      injection h with hpair
      obtain ⟨ext1, wf1, canon1, stable1⟩ := tl_main_list alts s subs s1 hwf hl
      have hdl : lookupA
          ("union_of_" ++ String.intercalate "_or_" (subs.map TypeDefL.name))
          s'.collected = some t := by
        have hx := declare_type_lookup s1
          { name := "union_of_" ++
              String.intercalate "_or_" (subs.map TypeDefL.name),
            init := "_UnionLoader((" ++
              String.intercalate ", " (subs.map TypeDefL.name) ++ ",))" }
        rw [hpair] at hx
        exact hx
      have hext2 : SExtends s' s1 := by
        have hx := declare_type_extends s1
          { name := "union_of_" ++
              String.intercalate "_or_" (subs.map TypeDefL.name),
            init := "_UnionLoader((" ++
              String.intercalate ", " (subs.map TypeDefL.name) ++ ",))" }
        rw [hpair] at hx
        exact hx
      have hwf2 : RegWf s' := by
        have hx := declare_type_wf s1
          { name := "union_of_" ++
              String.intercalate "_or_" (subs.map TypeDefL.name),
            init := "_UnionLoader((" ++
              String.intercalate ", " (subs.map TypeDefL.name) ++ ",))" } wf1
        rw [hpair] at hx
        exact hx
      have hname : t.name = "union_of_" ++
          String.intercalate "_or_" (subs.map TypeDefL.name) := by
        have hx := declare_type_name s1
          { name := "union_of_" ++
              String.intercalate "_or_" (subs.map TypeDefL.name),
            init := "_UnionLoader((" ++
              String.intercalate ", " (subs.map TypeDefL.name) ++ ",))" } wf1
        rw [hpair] at hx
        exact hx
      refine ⟨sextends_trans hext2 ext1, hwf2, ?_, ?_⟩
      · unfold canonName
        rw [canon1]
        dsimp only [Option.map_some']
        rw [hname]
      · intro s2 h2
        unfold type_loader
        rw [stable1 s2 (sextends_trans h2 hext2)]
        dsimp only
        rw [declare_type_stable s2 _ t (h2.1 _ _ hdl)]
  | TypeDecl.badD tag, s, t, s', hwf, h => by
    unfold type_loader at h
    exact absurd h (by simp)

/-- List version of `tl_main`, for the alternatives of a union. -/
theorem tl_main_list : ∀ (ds : TypeDeclList) (s : CGState) (ts : List TypeDefL)
    (s' : CGState),
    RegWf s → type_loader_list ds s = Except.ok (ts, s') →
    SExtends s' s ∧ RegWf s'
    ∧ canonNameList ds = some (ts.map TypeDefL.name)
    ∧ (∀ s2, SExtends s2 s' → type_loader_list ds s2 = Except.ok (ts, s2))
  | TypeDeclList.nil, s, ts, s', hwf, h => by
    unfold type_loader_list at h
    injection h with hpair
    injection hpair with h1 h2
    subst h1
    subst h2
    exact ⟨sextends_refl s, hwf, rfl, fun s2 _ => rfl⟩
  | TypeDeclList.cons d ds, s, ts, s', hwf, h => by
    unfold type_loader_list at h
    cases hd : type_loader d s with
    | error e => rw [hd] at h; exact absurd h (by simp)
    | ok p =>
      obtain ⟨t0, s1⟩ := p
      rw [hd] at h
      dsimp only at h
      cases hds : type_loader_list ds s1 with
      | error e => rw [hds] at h; exact absurd h (by simp)
      | ok q =>
        obtain ⟨ts0, s2⟩ := q
        rw [hds] at h
        dsimp only at h
        injection h with hpair
        injection hpair with h1 h2
        subst h1
        subst h2
        obtain ⟨ext1, wf1, canon1, stable1⟩ := tl_main d s t0 s1 hwf hd
        obtain ⟨ext2, wf2, canon2, stable2⟩ := tl_main_list ds s1 ts0 s2 wf1 hds
        refine ⟨sextends_trans ext2 ext1, wf2, ?_, ?_⟩
        · unfold canonNameList
          rw [canon1]
          dsimp only
          rw [canon2]
          simp
        · intro s3 h3
          unfold type_loader_list
          rw [stable1 s3 (sextends_trans h3 ext2)]
          dsimp only
          rw [stable2 s3 h3]
end

/-- Claim C2: compiling a shape yields a descriptor whose canonical name
is the deterministic canonical-name function of the shape, and compiling
the identical shape again returns the identical registry entry with the
registry untouched (no duplicate construction). -/
theorem type_loader_interning (d : TypeDecl) (s s' : CGState) (t : TypeDefL)
    (hwf : RegWf s) (h : type_loader d s = Except.ok (t, s')) :
    type_loader d s' = Except.ok (t, s')
    ∧ canonName d = some t.name
    ∧ RegWf s' := by
  obtain ⟨ext, wf, canon, stable⟩ := tl_main d s t s' hwf h
  exact ⟨stable s' (sextends_refl s'), canon, wf⟩

/-- Witness for C2: compiling an array-of-int shape twice in a row from
the empty state returns the identical descriptor and identical state. -/
theorem type_loader_interning_witness :
    RegWf cgEmpty
    ∧ type_loader dW cgEmpty = Except.ok (tW, sW)
    ∧ type_loader dW sW = Except.ok (tW, sW)
    ∧ canonName dW = some tW.name := by
  have hwf : RegWf cgEmpty := fun p hp => absurd hp (by simp [cgEmpty])
  have h := type_loader_interning dW cgEmpty sW tW hwf rfl
  exact ⟨hwf, rfl, h.1, h.2.1⟩

/-- Claim C3 (amended): a union loader's canonical name joins the member
canonical names with `_or_` in declared order, and when that name is not
already interned its recipe lists the member loaders in that same order;
distinct orders are distinct only as far as the joined names differ (the
join is not injective). -/
theorem union_order_preserved (alts : TypeDeclList) (s s1 : CGState)
    (subs : List TypeDefL) (t : TypeDefL) (s2 : CGState)
    (hwf : RegWf s)
    (hl : type_loader_list alts s = Except.ok (subs, s1))
    (h : type_loader (TypeDecl.unionD alts) s = Except.ok (t, s2)) :
    t.name = "union_of_" ++ String.intercalate "_or_" (subs.map TypeDefL.name)
    ∧ (lookupA ("union_of_" ++
          String.intercalate "_or_" (subs.map TypeDefL.name)) s1.collected
          = none →
       t.init = "_UnionLoader((" ++
         String.intercalate ", " (subs.map TypeDefL.name) ++ ",))") := by
  unfold type_loader at h
  rw [hl] at h
  dsimp only at h
  injection h with hpair
  obtain ⟨ext1, wf1, canon1, stable1⟩ := tl_main_list alts s subs s1 hwf hl
  constructor
  · have hx := declare_type_name s1
      { name := "union_of_" ++
          String.intercalate "_or_" (subs.map TypeDefL.name),
        init := "_UnionLoader((" ++
          String.intercalate ", " (subs.map TypeDefL.name) ++ ",))" } wf1
    rw [hpair] at hx
    exact hx
  · intro hnone
    unfold declare_type at hpair
    rw [hnone] at hpair
    dsimp only at hpair
    injection hpair with h1 h2
    rw [← h1]

/-- Witness for the amended C3: a one-member union is named and built
from its member in order. -/
theorem union_order_preserved_witness :
    RegWf cgEmpty
    ∧ type_loader_list altsW cgEmpty = Except.ok ([atdW], s1W)
    ∧ type_loader (TypeDecl.unionD altsW) cgEmpty = Except.ok (utdW, s2W)
    ∧ utdW.name = "union_of_xLoader"
    ∧ utdW.init = "_UnionLoader((xLoader,))" := by
  have hwf : RegWf cgEmpty := fun p hp => absurd hp (by simp [cgEmpty])
  have h := union_order_preserved altsW cgEmpty s1W [atdW] utdW s2W hwf rfl rfl
  exact ⟨hwf, rfl, rfl, h.1, h.2 rfl⟩

/-- Counterexample for C3 as stated: the two unions over the same two
record alternatives in opposite orders produce the same canonical name,
so the second compilation returns the first union's descriptor — whose
recipe lists the members in the first order — identically, not a distinct
TypeDef. -/
theorem union_order_collision :
    compileTwice cexU1 cexU2 cgEmpty =
      Except.ok
        ({ name := "union_of_fooLoader_or_fooLoader_or_fooLoader",
           init := "_UnionLoader((fooLoader_or_fooLoader, fooLoader,))" },
         { name := "union_of_fooLoader_or_fooLoader_or_fooLoader",
           init := "_UnionLoader((fooLoader_or_fooLoader, fooLoader,))" })
    ∧ cexU1 ≠ cexU2 := by
  refine ⟨rfl, ?_⟩
  intro hc
  unfold cexU1 cexU2 cexA cexB at hc
  injection hc with h1
  injection h1 with h2 h3
  injection h2 with h4
  exact absurd h4 (by decide)
